import Mathlib

/-!
Verification of the evolutionary compliance simulation
(`simulation.py`): population initialization, per-round pairing with
audit/fine/liability logic, and the social-learning update.

Modelling conventions:
* Python floats become `ℚ` (all payoff arithmetic is additive, so the
  embedding is exact).
* `strategy` keeps the source encoding: `1` = Safe, `0` = Risky, as a `Nat`.
* Randomness is made explicit: shuffles become permutation-valued
  parameters, `random.random()` draws become rational-valued streams
  (`Nat → ℚ`), indexed by pair index (audit draws) or by the agent's
  position in the population (learning draws).
-/

/-- Configuration constant `POPULATION_SIZE = 1000` (line 11). -/
def POPULATION_SIZE : Nat := 1000

/-- Configuration constant `ROUNDS_PER_SIM = 50` (line 12). -/
def ROUNDS_PER_SIM : Nat := 50

/-- Economic constant `PROFIT = 100` (line 16). -/
def PROFIT : ℚ := 100

/-- Economic constant `COST_SAFE = 20` (line 17). -/
def COST_SAFE : ℚ := 20

/-- Social learning rate `LEARNING_RATE = 0.1` (line 25). -/
def LEARNING_RATE : ℚ := 1 / 10

/-- An agent: `strategy` (1 = Safe, 0 = Risky) and per-round `wealth`
(lines 29-35). -/
structure Agent where
  strategy : Nat
  wealth : ℚ
deriving DecidableEq, Repr, Inhabited

/-- Population construction (lines 51-52): `POPULATION_SIZE // 2` Safe
agents followed by `POPULATION_SIZE // 2` Risky agents, parameterized by
the configured size `n`. -/
def initPopulation (n : Nat) : List Agent :=
  List.replicate (n / 2) ⟨1, 0⟩ ++ List.replicate (n / 2) ⟨0, 0⟩

/-- The audit draw `random.random() < audit_prob` (line 67), with the
uniform draw `u` made explicit. -/
def isAudited (u audit_prob : ℚ) : Bool :=
  u < audit_prob

/-- Payoff computation for one pair (lines 69-94): base `PROFIT`, the
Safe cost, and — when audited — the fine plus reputation loss for each
Risky member, mirrored onto the partner when `liability_model` equals
`"Partnership"`.  Returns both agents with the payoffs added to their
wealth. -/
def playPair (fine_amount reputation_loss : ℚ) (liability_model : String)
    (is_audited : Bool) (agent_A agent_B : Agent) : Agent × Agent :=
  let payoff_A : ℚ := PROFIT
  let payoff_B : ℚ := PROFIT
  let payoff_A := if agent_A.strategy == 1 then payoff_A - COST_SAFE else payoff_A
  let payoff_B := if agent_B.strategy == 1 then payoff_B - COST_SAFE else payoff_B
  let step1 : ℚ × ℚ :=
    if is_audited && (agent_A.strategy == 0) then
      (payoff_A - (fine_amount + reputation_loss),
       if liability_model == "Partnership" then
         payoff_B - (fine_amount + reputation_loss)
       else payoff_B)
    else (payoff_A, payoff_B)
  let step2 : ℚ × ℚ :=
    if is_audited && (agent_B.strategy == 0) then
      ((if liability_model == "Partnership" then
          step1.1 - (fine_amount + reputation_loss)
        else step1.1),
       step1.2 - (fine_amount + reputation_loss))
    else step1
  (⟨agent_A.strategy, agent_A.wealth + step2.1⟩,
   ⟨agent_B.strategy, agent_B.wealth + step2.2⟩)

/-- The per-round pair loop (lines 64-94): consecutive disjoint pairs
`(l[0],l[1]), (l[2],l[3]), …` of the shuffled list, each with its own
audit draw `auditU k`; a trailing unpaired agent is left untouched
(`zip` truncation). -/
def playPairs (fine_amount reputation_loss : ℚ) (liability_model : String)
    (audit_prob : ℚ) (auditU : Nat → ℚ) : Nat → List Agent → List Agent
  | _, [] => []
  | _, [a] => [a]
  | k, a :: b :: rest =>
    let p := playPair fine_amount reputation_loss liability_model
      (isAudited (auditU k) audit_prob) a b
    p.1 :: p.2 :: playPairs fine_amount reputation_loss liability_model
      audit_prob auditU (k + 1) rest

/-- Even-indexed elements `l[0::2]` of a list. -/
def evens : List Agent → List Agent
  | [] => []
  | [a] => [a]
  | a :: _ :: rest => a :: evens rest

/-- Odd-indexed elements `l[1::2]` of a list. -/
def odds : List Agent → List Agent
  | [] => []
  | [_] => []
  | _ :: b :: rest => b :: odds rest

/-- The pairing expression `zip(agents[0::2], agents[1::2])` (line 64). -/
def pairsOf (l : List Agent) : List (Agent × Agent) :=
  List.zip (evens l) (odds l)

/-- Wealth reset at the start of each round (lines 59-60). -/
def resetWealth (l : List Agent) : List Agent :=
  l.map fun a => ⟨a.strategy, 0⟩

/-- The `np.mean(...) if ... else 0` expressions (lines 100-101): mean
wealth of a sub-population, defaulting to 0 on the empty list. -/
def meanWealth (l : List Agent) : ℚ :=
  if l.isEmpty then 0 else (l.map (·.wealth)).sum / l.length

/-- Safe agents switching to Risky (lines 105-107): each agent whose
strategy is Safe switches when its draw is below `LEARNING_RATE`.  The
draw for the agent at position `i` of the population is `u (k + i)`. -/
def switchSafe (u : Nat → ℚ) : Nat → List Agent → List Agent
  | _, [] => []
  | i, a :: rest =>
    (if a.strategy == 1 && decide (u i < LEARNING_RATE) then
      (⟨0, a.wealth⟩ : Agent)
    else a) :: switchSafe u (i + 1) rest

/-- Risky agents switching to Safe (lines 110-112). -/
def switchRisky (u : Nat → ℚ) : Nat → List Agent → List Agent
  | _, [] => []
  | i, a :: rest =>
    (if a.strategy == 0 && decide (u i < LEARNING_RATE) then
      (⟨1, a.wealth⟩ : Agent)
    else a) :: switchRisky u (i + 1) rest

/-- The social-learning step (lines 96-112): partition by strategy,
compare mean wealths (empty side defaulting to 0), and let the losing
side's agents switch with probability `LEARNING_RATE` (the Bernoulli
draws made explicit through `u`). -/
def learnStep (u : Nat → ℚ) (agents : List Agent) : List Agent :=
  let safe_agents := agents.filter fun a => a.strategy == 1
  let risky_agents := agents.filter fun a => a.strategy == 0
  let avg_safe_wealth := meanWealth safe_agents
  let avg_risky_wealth := meanWealth risky_agents
  if avg_risky_wealth > avg_safe_wealth then switchSafe u 0 agents
  else if avg_safe_wealth > avg_risky_wealth then switchRisky u 0 agents
  else agents

/-- The explicit random stream consumed by one cycle: the initial
shuffle, a per-round shuffle, per-round-per-pair audit draws and
per-round-per-position learning draws. -/
structure RandomStream where
  initShuffle : List Agent → List Agent
  shuffle : Nat → List Agent → List Agent
  auditU : Nat → Nat → ℚ
  learnU : Nat → Nat → ℚ

/-- One round (lines 57-112): reset wealth, shuffle, play all pairs,
then run the social-learning step. -/
def runRound (fine_amount reputation_loss : ℚ) (liability_model : String)
    (audit_prob : ℚ) (shuf : List Agent → List Agent)
    (auditU learnU : Nat → ℚ) (agents : List Agent) : List Agent :=
  learnStep learnU
    (playPairs fine_amount reputation_loss liability_model audit_prob auditU 0
      (shuf (resetWealth agents)))

/-- The population after `rounds` rounds of the cycle (lines 50-112),
parameterized by the configured population size `n`. -/
def cyclePopulation (n rounds : Nat) (audit_prob fine_amount reputation_loss : ℚ)
    (liability_model : String) (rs : RandomStream) : List Agent :=
  (List.range rounds).foldl
    (fun acc t =>
      runRound fine_amount reputation_loss liability_model audit_prob
        (rs.shuffle t) (rs.auditU t) (rs.learnU t) acc)
    (rs.initShuffle (initPopulation n))

/-- The cycle's return value (line 115): `sum(a.strategy for a in agents)`
divided by the configured population size. -/
def runCycle (n rounds : Nat) (audit_prob fine_amount reputation_loss : ℚ)
    (liability_model : String) (rs : RandomStream) : ℚ :=
  let s : Nat := ((cyclePopulation n rounds audit_prob fine_amount
    reputation_loss liability_model rs).map (·.strategy)).sum
  (s : ℚ) / (n : ℚ)

/-- `run_evolutionary_cycle` (lines 39-115) at the configured constants. -/
def run_evolutionary_cycle (audit_prob fine_amount reputation_loss : ℚ)
    (liability_model : String) (rs : RandomStream) : ℚ :=
  runCycle POPULATION_SIZE ROUNDS_PER_SIM audit_prob fine_amount
    reputation_loss liability_model rs

/-- Claim C3: for a single audited pair with A Risky and B Safe, under the
Individual liability model B's payoff is `PROFIT - COST_SAFE`, unaffected
by A's penalty (which falls on A alone), while under the Partnership model
B's payoff is additionally reduced by exactly
`fine_amount + reputation_loss`. -/
theorem liability_asymmetry_C3 (fine_amount reputation_loss : ℚ) :
    (playPair fine_amount reputation_loss "Individual" true ⟨0, 0⟩ ⟨1, 0⟩).2.wealth
      = PROFIT - COST_SAFE
    ∧ (playPair fine_amount reputation_loss "Individual" true ⟨0, 0⟩ ⟨1, 0⟩).1.wealth
      = PROFIT - (fine_amount + reputation_loss)
    ∧ (playPair fine_amount reputation_loss "Partnership" true ⟨0, 0⟩ ⟨1, 0⟩).2.wealth
      = (PROFIT - COST_SAFE) - (fine_amount + reputation_loss) := by
  refine ⟨?_, ?_, ?_⟩ <;> simp [playPair, PROFIT, COST_SAFE]

/-- Claim C4: under the Partnership liability model, when both members of
an audited pair are Risky each incurs the direct penalty and the partner's
cross-penalty, so each payoff is `PROFIT - 2 * (fine_amount +
reputation_loss)`. -/
theorem partnership_compounding_C4 (fine_amount reputation_loss : ℚ) :
    (playPair fine_amount reputation_loss "Partnership" true ⟨0, 0⟩ ⟨0, 0⟩).1.wealth
      = PROFIT - 2 * (fine_amount + reputation_loss)
    ∧ (playPair fine_amount reputation_loss "Partnership" true ⟨0, 0⟩ ⟨0, 0⟩).2.wealth
      = PROFIT - 2 * (fine_amount + reputation_loss) := by
  constructor <;> · simp [playPair, PROFIT, COST_SAFE]; ring_nf

/-- A concrete random stream: identity shuffles, every uniform draw 1
(so a pair is audited exactly when `1 < audit_prob`, and no learning
switch ever fires since `¬ (1 < LEARNING_RATE)`). -/
def idStream : RandomStream :=
  ⟨id, fun _ => id, fun _ _ => 1, fun _ _ => 1⟩

/-- Claim C1 (behavior of the code at the failing configuration): no
validation happens at construction or entry.  With the odd population
size 3, construction silently yields `2 * (3 // 2) = 2` agents instead
of raising a precondition error, and an out-of-range `audit_probability`
is silently tolerated: `3/2` audits every pair (any uniform draw in
`[0,1)` is below it) and `-1` audits none. -/
theorem no_validation_C1 :
    (initPopulation 3).length = 2
    ∧ isAudited (9 / 10) (3 / 2) = true
    ∧ isAudited (1 / 2) (-1) = false := by
  refine ⟨rfl, ?_, ?_⟩ <;> norm_num [isAudited]

/-- Claim C6: for an even configured size `n`, population construction
creates exactly `n` agents, exactly `n/2` Safe and `n/2` Risky, and any
permutation of it (the uniform shuffle) preserves the size and the
balanced 50/50 split. -/
theorem init_balanced_C6 (n : Nat) (hn : n % 2 = 0) :
    (initPopulation n).length = n
    ∧ (initPopulation n).countP (fun a => a.strategy == 1) = n / 2
    ∧ (initPopulation n).countP (fun a => a.strategy == 0) = n / 2
    ∧ ∀ l : List Agent, List.Perm l (initPopulation n) →
        l.length = n
        ∧ l.countP (fun a => a.strategy == 1) = n / 2
        ∧ l.countP (fun a => a.strategy == 0) = n / 2 := by
  have hlen : (initPopulation n).length = n := by
    simp [initPopulation]
    omega
  have h1 : (initPopulation n).countP (fun a => a.strategy == 1) = n / 2 := by
    simp [initPopulation, List.countP_append, List.countP_replicate]
  have h0 : (initPopulation n).countP (fun a => a.strategy == 0) = n / 2 := by
    simp [initPopulation, List.countP_append, List.countP_replicate]
  refine ⟨hlen, h1, h0, fun l hp => ?_⟩
  exact ⟨hp.length_eq.trans hlen, (hp.countP_eq _).trans h1,
    (hp.countP_eq _).trans h0⟩

/-- Witness for C6 at the configured `POPULATION_SIZE = 1000`. -/
theorem init_balanced_C6_witness :
    1000 % 2 = 0
    ∧ ((initPopulation 1000).length = 1000
      ∧ (initPopulation 1000).countP (fun a => a.strategy == 1) = 1000 / 2
      ∧ (initPopulation 1000).countP (fun a => a.strategy == 0) = 1000 / 2
      ∧ ∀ l : List Agent, List.Perm l (initPopulation 1000) →
          l.length = 1000
          ∧ l.countP (fun a => a.strategy == 1) = 1000 / 2
          ∧ l.countP (fun a => a.strategy == 0) = 1000 / 2) :=
  ⟨rfl, init_balanced_C6 1000 rfl⟩

/-- Claim C7: wealth is reset to 0 at the start of every round before any
payoff, and the round's outcome (including the wealths its learning step
sees) depends only on the incoming strategies — two populations with the
same strategies but different wealths produce identical rounds, so no
wealth carries over between rounds. -/
theorem wealth_reset_C7 (fine_amount reputation_loss audit_prob : ℚ)
    (liability_model : String) (shuf : List Agent → List Agent)
    (auditU learnU : Nat → ℚ) (a1 a2 : List Agent)
    (h : a1.map (·.strategy) = a2.map (·.strategy)) :
    (∀ a ∈ resetWealth a1, a.wealth = 0)
    ∧ runRound fine_amount reputation_loss liability_model audit_prob
        shuf auditU learnU a1
      = runRound fine_amount reputation_loss liability_model audit_prob
        shuf auditU learnU a2 := by
  have key : ∀ l : List Agent,
      resetWealth l = (l.map (·.strategy)).map fun s => (⟨s, 0⟩ : Agent) := by
    intro l
    simp [resetWealth, List.map_map]
  have hreset : resetWealth a1 = resetWealth a2 := by
    rw [key, key, h]
  constructor
  · intro a ha
    simp only [resetWealth, List.mem_map] at ha
    obtain ⟨b, _, rfl⟩ := ha
    rfl
  · simp [runRound, hreset]

/-- Witness for C7: two singleton populations sharing the strategy but
not the wealth. -/
theorem wealth_reset_C7_witness :
    ([(⟨1, 5⟩ : Agent)].map (·.strategy) = [(⟨1, 7⟩ : Agent)].map (·.strategy))
    ∧ ((∀ a ∈ resetWealth [(⟨1, 5⟩ : Agent)], a.wealth = 0)
      ∧ runRound 0 0 "Individual" 0 id (fun _ => 1) (fun _ => 1)
          [(⟨1, 5⟩ : Agent)]
        = runRound 0 0 "Individual" 0 id (fun _ => 1) (fun _ => 1)
          [(⟨1, 7⟩ : Agent)]) :=
  ⟨rfl, wealth_reset_C7 0 0 0 "Individual" id (fun _ => 1) (fun _ => 1)
    [⟨1, 5⟩] [⟨1, 7⟩] rfl⟩

/-- Element-wise description of `switchSafe`: the agent at position `i`
switches to Risky exactly when it is Safe and its draw is below
`LEARNING_RATE`. -/
theorem switchSafe_getD (u : Nat → ℚ) (k : Nat) (l : List Agent) (i : Nat)
    (hi : i < l.length) :
    (switchSafe u k l).getD i default
      = if (l.getD i default).strategy == 1 && decide (u (k + i) < LEARNING_RATE)
        then (⟨0, (l.getD i default).wealth⟩ : Agent)
        else l.getD i default := by
  induction l generalizing k i with
  | nil => simp at hi
  | cons a rest ih =>
    cases i with
    | zero => simp [switchSafe]
    | succ j =>
      simp only [switchSafe, List.getD_cons_succ]
      rw [show k + (j + 1) = k + 1 + j by omega]
      exact ih (k + 1) j (by simpa using hi)

/-- Element-wise description of `switchRisky`. -/
theorem switchRisky_getD (u : Nat → ℚ) (k : Nat) (l : List Agent) (i : Nat)
    (hi : i < l.length) :
    (switchRisky u k l).getD i default
      = if (l.getD i default).strategy == 0 && decide (u (k + i) < LEARNING_RATE)
        then (⟨1, (l.getD i default).wealth⟩ : Agent)
        else l.getD i default := by
  induction l generalizing k i with
  | nil => simp at hi
  | cons a rest ih =>
    cases i with
    | zero => simp [switchRisky]
    | succ j =>
      simp only [switchRisky, List.getD_cons_succ]
      rw [show k + (j + 1) = k + 1 + j by omega]
      exact ih (k + 1) j (by simpa using hi)

/-- `switchSafe` is the identity on a list with no Safe agent. -/
theorem switchSafe_id_of (u : Nat → ℚ) (k : Nat) (l : List Agent)
    (h : ∀ a ∈ l, a.strategy ≠ 1) : switchSafe u k l = l := by
  induction l generalizing k with
  | nil => rfl
  | cons a rest ih =>
    have ha : a.strategy ≠ 1 := h a (List.mem_cons_self a rest)
    simp only [switchSafe]
    rw [if_neg (by simp [ha]), ih (k + 1) fun b hb => h b (List.mem_cons_of_mem a hb)]

/-- `switchRisky` is the identity on a list with no Risky agent. -/
theorem switchRisky_id_of (u : Nat → ℚ) (k : Nat) (l : List Agent)
    (h : ∀ a ∈ l, a.strategy ≠ 0) : switchRisky u k l = l := by
  induction l generalizing k with
  | nil => rfl
  | cons a rest ih =>
    have ha : a.strategy ≠ 0 := h a (List.mem_cons_self a rest)
    simp only [switchRisky]
    rw [if_neg (by simp [ha]), ih (k + 1) fun b hb => h b (List.mem_cons_of_mem a hb)]

/-- Claim C5: the social-learning step moves agents only from the
lower-mean strategy toward the higher-mean one.  When the Risky mean
exceeds the Safe mean, the agent at each position switches to Risky
exactly when it is Safe and its draw is below `LEARNING_RATE` (Risky
agents are untouched); symmetrically when the Safe mean exceeds the
Risky mean; when the means are equal nothing changes. -/
theorem learning_direction_C5 (u : Nat → ℚ) (agents : List Agent) :
    (meanWealth (agents.filter fun a => a.strategy == 0)
        > meanWealth (agents.filter fun a => a.strategy == 1) →
      ∀ i, i < agents.length →
        (learnStep u agents).getD i default
          = if (agents.getD i default).strategy == 1
              && decide (u i < LEARNING_RATE)
            then (⟨0, (agents.getD i default).wealth⟩ : Agent)
            else agents.getD i default)
    ∧ (meanWealth (agents.filter fun a => a.strategy == 1)
        > meanWealth (agents.filter fun a => a.strategy == 0) →
      ∀ i, i < agents.length →
        (learnStep u agents).getD i default
          = if (agents.getD i default).strategy == 0
              && decide (u i < LEARNING_RATE)
            then (⟨1, (agents.getD i default).wealth⟩ : Agent)
            else agents.getD i default)
    ∧ (meanWealth (agents.filter fun a => a.strategy == 1)
        = meanWealth (agents.filter fun a => a.strategy == 0) →
      learnStep u agents = agents) := by
  refine ⟨fun hgt i hi => ?_, fun hgt i hi => ?_, fun heq => ?_⟩
  · have hstep : learnStep u agents = switchSafe u 0 agents := by
      simp only [learnStep]
      rw [if_pos hgt]
    rw [hstep]
    simpa using switchSafe_getD u 0 agents i hi
  · have hstep : learnStep u agents = switchRisky u 0 agents := by
      simp only [learnStep]
      rw [if_neg (lt_asymm hgt), if_pos hgt]
    rw [hstep]
    simpa using switchRisky_getD u 0 agents i hi
  · simp only [learnStep]
    rw [if_neg (by rw [heq]; exact lt_irrefl _), if_neg (by rw [heq]; exact lt_irrefl _)]

/-- Witness for C5: a Safe agent with wealth 0 and a Risky agent with
wealth 5; the Risky mean wins and the Safe agent's draw 1 is not below
`LEARNING_RATE`, so position 0 keeps its strategy. -/
theorem learning_direction_C5_witness :
    meanWealth ([(⟨1, 0⟩ : Agent), ⟨0, 5⟩].filter fun a => a.strategy == 0)
      > meanWealth ([(⟨1, 0⟩ : Agent), ⟨0, 5⟩].filter fun a => a.strategy == 1)
    ∧ (learnStep (fun _ => 1) [(⟨1, 0⟩ : Agent), ⟨0, 5⟩]).getD 0 default
      = if (([(⟨1, 0⟩ : Agent), ⟨0, 5⟩].getD 0 default).strategy == 1)
          && decide ((1 : ℚ) < LEARNING_RATE)
        then (⟨0, ([(⟨1, 0⟩ : Agent), ⟨0, 5⟩].getD 0 default).wealth⟩ : Agent)
        else [(⟨1, 0⟩ : Agent), ⟨0, 5⟩].getD 0 default := by
  have e0 : ([(⟨1, 0⟩ : Agent), ⟨0, 5⟩].filter fun a => a.strategy == 0)
      = [(⟨0, 5⟩ : Agent)] := rfl
  have e1 : ([(⟨1, 0⟩ : Agent), ⟨0, 5⟩].filter fun a => a.strategy == 1)
      = [(⟨1, 0⟩ : Agent)] := rfl
  have h : meanWealth ([(⟨1, 0⟩ : Agent), ⟨0, 5⟩].filter fun a => a.strategy == 0)
      > meanWealth ([(⟨1, 0⟩ : Agent), ⟨0, 5⟩].filter fun a => a.strategy == 1) := by
    rw [e0, e1]
    norm_num [meanWealth]
  exact ⟨h, (learning_direction_C5 (fun _ => 1) [⟨1, 0⟩, ⟨0, 5⟩]).1 h 0 (by norm_num)⟩

/-- Counterexample to C2 as stated: in the all-Risky population
`[⟨0, -300⟩, ⟨0, -300⟩]` (wealth `-300` is reachable: an audited
all-Risky pair under Partnership with `fine = reputation_loss = 100`),
SafeSet is empty, its mean defaults to 0, beats the Risky mean `-300`,
and with a draw below `LEARNING_RATE` the agent at position 0 DOES
switch to Safe. -/
theorem empty_side_C2_counterexample :
    ([(⟨0, -300⟩ : Agent), ⟨0, -300⟩].filter fun a => a.strategy == 1) = []
    ∧ ((learnStep (fun _ => 0) [(⟨0, -300⟩ : Agent), ⟨0, -300⟩]).getD 0
        default).strategy = 1 := by
  refine ⟨rfl, ?_⟩
  have e1 : ([(⟨0, -300⟩ : Agent), ⟨0, -300⟩].filter fun a => a.strategy == 1)
      = [] := rfl
  have e0 : ([(⟨0, -300⟩ : Agent), ⟨0, -300⟩].filter fun a => a.strategy == 0)
      = [(⟨0, -300⟩ : Agent), ⟨0, -300⟩] := rfl
  have hgt : meanWealth ([(⟨0, -300⟩ : Agent), ⟨0, -300⟩].filter
        fun a => a.strategy == 1)
      > meanWealth ([(⟨0, -300⟩ : Agent), ⟨0, -300⟩].filter
        fun a => a.strategy == 0) := by
    rw [e0, e1]
    norm_num [meanWealth]
  have hnot : ¬ (meanWealth ([(⟨0, -300⟩ : Agent), ⟨0, -300⟩].filter
        fun a => a.strategy == 0)
      > meanWealth ([(⟨0, -300⟩ : Agent), ⟨0, -300⟩].filter
        fun a => a.strategy == 1)) := lt_asymm hgt
  have hstep : learnStep (fun _ => 0) [(⟨0, -300⟩ : Agent), ⟨0, -300⟩]
      = switchRisky (fun _ => 0) 0 [(⟨0, -300⟩ : Agent), ⟨0, -300⟩] := by
    simp only [learnStep]
    rw [if_neg hnot, if_pos hgt]
  rw [hstep, switchRisky_getD (fun _ => 0) 0 _ 0 (by norm_num)]
  norm_num [LEARNING_RATE]

/-- Claim C2 amended: when every agent shares one strategy, the learning
step is total (no error) and, provided the shared side's total (hence
mean) wealth is nonnegative — which is the claim's situation with the
empty side's mean defaulting to 0 — no agent switches.  (When the shared
side's mean is negative, its agents do switch, per the counterexample.) -/
theorem empty_side_C2_amended (u : Nat → ℚ) (agents : List Agent)
    (hs : (∀ a ∈ agents, a.strategy = 1) ∨ (∀ a ∈ agents, a.strategy = 0))
    (hw : 0 ≤ (agents.map (·.wealth)).sum) :
    learnStep u agents = agents := by
  rcases hs with hs | hs
  · have e1 : agents.filter (fun a => a.strategy == 1) = agents :=
      List.filter_eq_self.mpr (by intro a ha; simp [hs a ha])
    have e0 : agents.filter (fun a => a.strategy == 0) = [] :=
      List.filter_eq_nil_iff.mpr (by intro a ha; simp [hs a ha])
    have hR : meanWealth (agents.filter fun a => a.strategy == 0) = 0 := by
      rw [e0]
      rfl
    have hS : 0 ≤ meanWealth (agents.filter fun a => a.strategy == 1) := by
      rw [e1]
      unfold meanWealth
      split
      · exact le_refl 0
      · exact div_nonneg hw (Nat.cast_nonneg _)
    simp only [learnStep]
    rw [if_neg (by rw [hR]; exact not_lt.mpr hS)]
    by_cases h2 : meanWealth (agents.filter fun a => a.strategy == 1)
        > meanWealth (agents.filter fun a => a.strategy == 0)
    · rw [if_pos h2]
      exact switchRisky_id_of u 0 agents fun a ha => by simp [hs a ha]
    · rw [if_neg h2]
  · have e1 : agents.filter (fun a => a.strategy == 1) = [] :=
      List.filter_eq_nil_iff.mpr (by intro a ha; simp [hs a ha])
    have e0 : agents.filter (fun a => a.strategy == 0) = agents :=
      List.filter_eq_self.mpr (by intro a ha; simp [hs a ha])
    have hS : meanWealth (agents.filter fun a => a.strategy == 1) = 0 := by
      rw [e1]
      rfl
    have hR : 0 ≤ meanWealth (agents.filter fun a => a.strategy == 0) := by
      rw [e0]
      unfold meanWealth
      split
      · exact le_refl 0
      · exact div_nonneg hw (Nat.cast_nonneg _)
    simp only [learnStep]
    by_cases h1 : meanWealth (agents.filter fun a => a.strategy == 0)
        > meanWealth (agents.filter fun a => a.strategy == 1)
    · rw [if_pos h1]
      exact switchSafe_id_of u 0 agents fun a ha => by simp [hs a ha]
    · rw [if_neg h1, if_neg (by rw [hS]; exact not_lt.mpr hR)]

/-- Witness for the amended C2: a one-agent all-Safe population with
nonnegative wealth and a draw that would fire a switch if one were
attempted. -/
theorem empty_side_C2_witness :
    ((∀ a ∈ [(⟨1, 80⟩ : Agent)], a.strategy = 1)
      ∨ (∀ a ∈ [(⟨1, 80⟩ : Agent)], a.strategy = 0))
    ∧ 0 ≤ ([(⟨1, 80⟩ : Agent)].map (·.wealth)).sum
    ∧ learnStep (fun _ => 0) [(⟨1, 80⟩ : Agent)] = [(⟨1, 80⟩ : Agent)] :=
  ⟨Or.inl (by simp), by norm_num,
    empty_side_C2_amended (fun _ => 0) [⟨1, 80⟩] (Or.inl (by simp))
      (by norm_num)⟩

/-- Playing the pairs changes only wealth: the strategy sequence of the
population is untouched. -/
theorem playPairs_map_strategy (fine_amount reputation_loss : ℚ)
    (liability_model : String) (audit_prob : ℚ) (auditU : Nat → ℚ) :
    ∀ (k : Nat) (l : List Agent),
      (playPairs fine_amount reputation_loss liability_model audit_prob
        auditU k l).map (·.strategy) = l.map (·.strategy)
  | _, [] => rfl
  | _, [_] => rfl
  | k, a :: b :: rest => by
    simp only [playPairs, List.map_cons, List.cons.injEq]
    exact ⟨rfl, rfl, playPairs_map_strategy fine_amount reputation_loss
      liability_model audit_prob auditU (k + 1) rest⟩

/-- Every strategy in the population is the source encoding 0 or 1. -/
def strategies01 (l : List Agent) : Prop :=
  ∀ a ∈ l, a.strategy = 0 ∨ a.strategy = 1

/-- `strategies01` transfers along equality of strategy sequences. -/
theorem strategies01_of_map_eq {l1 l2 : List Agent}
    (h : l1.map (·.strategy) = l2.map (·.strategy)) (h1 : strategies01 l1) :
    strategies01 l2 := by
  intro a ha
  have hmem : a.strategy ∈ l2.map (·.strategy) := List.mem_map_of_mem _ ha
  rw [← h] at hmem
  obtain ⟨b, hb, hba⟩ := List.mem_map.mp hmem
  rw [← hba]
  exact h1 b hb

/-- `strategies01` transfers along permutations. -/
theorem strategies01_of_perm {l1 l2 : List Agent}
    (h : List.Perm l1 l2) (h1 : strategies01 l2) : strategies01 l1 :=
  fun a ha => h1 a (h.mem_iff.mp ha)

/-- `switchSafe` keeps strategies in {0, 1}. -/
theorem switchSafe_strategies01 (u : Nat → ℚ) (k : Nat) {l : List Agent}
    (h : strategies01 l) : strategies01 (switchSafe u k l) := by
  induction l generalizing k with
  | nil => exact h
  | cons a rest ih =>
    intro x hx
    simp only [switchSafe, List.mem_cons] at hx
    rcases hx with hx | hx
    · subst hx
      split
      · exact Or.inl rfl
      · exact h a (List.mem_cons_self a rest)
    · exact ih (k + 1) (fun b hb => h b (List.mem_cons_of_mem a hb)) x hx

/-- `switchRisky` keeps strategies in {0, 1}. -/
theorem switchRisky_strategies01 (u : Nat → ℚ) (k : Nat) {l : List Agent}
    (h : strategies01 l) : strategies01 (switchRisky u k l) := by
  induction l generalizing k with
  | nil => exact h
  | cons a rest ih =>
    intro x hx
    simp only [switchRisky, List.mem_cons] at hx
    rcases hx with hx | hx
    · subst hx
      split
      · exact Or.inr rfl
      · exact h a (List.mem_cons_self a rest)
    · exact ih (k + 1) (fun b hb => h b (List.mem_cons_of_mem a hb)) x hx

/-- `switchSafe` preserves length. -/
theorem switchSafe_length (u : Nat → ℚ) : ∀ (k : Nat) (l : List Agent),
    (switchSafe u k l).length = l.length
  | _, [] => rfl
  | k, a :: rest => by
    simp only [switchSafe, List.length_cons, switchSafe_length u (k + 1) rest]

/-- `switchRisky` preserves length. -/
theorem switchRisky_length (u : Nat → ℚ) : ∀ (k : Nat) (l : List Agent),
    (switchRisky u k l).length = l.length
  | _, [] => rfl
  | k, a :: rest => by
    simp only [switchRisky, List.length_cons, switchRisky_length u (k + 1) rest]

/-- The learning step keeps strategies in {0, 1} and preserves length. -/
theorem learnStep_WF (u : Nat → ℚ) {l : List Agent} (h : strategies01 l) :
    strategies01 (learnStep u l) ∧ (learnStep u l).length = l.length := by
  simp only [learnStep]
  split
  · exact ⟨switchSafe_strategies01 u 0 h, switchSafe_length u 0 l⟩
  · split
    · exact ⟨switchRisky_strategies01 u 0 h, switchRisky_length u 0 l⟩
    · exact ⟨h, rfl⟩

/-- One round keeps strategies in {0, 1} and preserves length, provided
the round's shuffle is a permutation. -/
theorem runRound_WF (fine_amount reputation_loss audit_prob : ℚ)
    (liability_model : String) (shuf : List Agent → List Agent)
    (auditU learnU : Nat → ℚ) {l : List Agent}
    (hshuf : ∀ l', List.Perm (shuf l') l') (h : strategies01 l) :
    strategies01 (runRound fine_amount reputation_loss liability_model
      audit_prob shuf auditU learnU l)
    ∧ (runRound fine_amount reputation_loss liability_model audit_prob
      shuf auditU learnU l).length = l.length := by
  have hreset : strategies01 (resetWealth l) := by
    intro a ha
    simp only [resetWealth, List.mem_map] at ha
    obtain ⟨b, hb, rfl⟩ := ha
    exact h b hb
  have hresetlen : (resetWealth l).length = l.length := List.length_map l _
  have hshuffled : strategies01 (shuf (resetWealth l)) :=
    strategies01_of_perm (hshuf (resetWealth l)) hreset
  have hshuflen : (shuf (resetWealth l)).length = l.length :=
    (hshuf (resetWealth l)).length_eq.trans hresetlen
  have hmap := playPairs_map_strategy fine_amount reputation_loss
    liability_model audit_prob auditU 0 (shuf (resetWealth l))
  have hplayed : strategies01 (playPairs fine_amount reputation_loss
      liability_model audit_prob auditU 0 (shuf (resetWealth l))) :=
    strategies01_of_map_eq hmap.symm hshuffled
  have hplaylen : (playPairs fine_amount reputation_loss liability_model
      audit_prob auditU 0 (shuf (resetWealth l))).length = l.length := by
    have h1 := congrArg List.length hmap
    simp only [List.length_map] at h1
    rw [h1, hshuflen]
  have hlearn := learnStep_WF learnU hplayed
  exact ⟨hlearn.1, by rw [runRound, hlearn.2, hplaylen]⟩

/-- Folding a step that preserves a predicate preserves it over a list. -/
theorem foldl_preserve {α β : Type} (P : α → Prop) (f : α → β → α)
    (l : List β) (hf : ∀ a b, P a → P (f a b)) :
    ∀ a, P a → P (l.foldl f a) := by
  induction l with
  | nil => exact fun a ha => ha
  | cons b rest ih => exact fun a ha => ih (f a b) (hf a b ha)

/-- The initial population has strategies in {0, 1}. -/
theorem initPopulation_strategies01 (n : Nat) :
    strategies01 (initPopulation n) := by
  intro a ha
  simp only [initPopulation, List.mem_append, List.mem_replicate] at ha
  rcases ha with ⟨_, rfl⟩ | ⟨_, rfl⟩
  · exact Or.inr rfl
  · exact Or.inl rfl

/-- Throughout the cycle the population keeps its size `2 * (n / 2)` and
all strategies stay in {0, 1}, provided every shuffle is a permutation. -/
theorem cyclePopulation_WF (n rounds : Nat)
    (audit_prob fine_amount reputation_loss : ℚ) (liability_model : String)
    (rs : RandomStream)
    (hi : ∀ l, List.Perm (rs.initShuffle l) l)
    (hs : ∀ t l, List.Perm (rs.shuffle t l) l) :
    strategies01 (cyclePopulation n rounds audit_prob fine_amount
      reputation_loss liability_model rs)
    ∧ (cyclePopulation n rounds audit_prob fine_amount reputation_loss
      liability_model rs).length = n / 2 + n / 2 := by
  have hinit0 : strategies01 (rs.initShuffle (initPopulation n)) :=
    strategies01_of_perm (hi (initPopulation n)) (initPopulation_strategies01 n)
  have hinitlen : (rs.initShuffle (initPopulation n)).length = n / 2 + n / 2 := by
    rw [(hi (initPopulation n)).length_eq]
    simp [initPopulation]
  exact foldl_preserve
    (fun l => strategies01 l ∧ l.length = n / 2 + n / 2)
    _ (List.range rounds)
    (fun l t hl =>
      let hr := runRound_WF fine_amount reputation_loss audit_prob
        liability_model (rs.shuffle t) (rs.auditU t) (rs.learnU t)
        (hs t) hl.1
      ⟨hr.1, hr.2.trans hl.2⟩)
    _ ⟨hinit0, hinitlen⟩

/-- The strategy sum of a {0, 1}-strategy population is its Safe count
and is bounded by its length. -/
theorem sum_strategies_eq {l : List Agent} (h : strategies01 l) :
    (l.map (·.strategy)).sum = l.countP (fun a => a.strategy == 1)
    ∧ (l.map (·.strategy)).sum ≤ l.length := by
  induction l with
  | nil => simp
  | cons a rest ih =>
    have ha := h a (List.mem_cons_self a rest)
    have hrest := ih fun b hb => h b (List.mem_cons_of_mem a hb)
    simp only [List.map_cons, List.sum_cons, List.countP_cons,
      List.length_cons]
    constructor
    · rcases ha with ha | ha <;> simp [ha, hrest.1, Nat.add_comm]
    · omega

/-- Claim C8: for all valid inputs (audit probability in [0,1],
nonnegative fine and reputation loss, an allowed liability model, and
genuine permutations for the shuffles), `run_evolutionary_cycle` returns
a value in [0,1], namely the fraction of the final population whose
strategy is Safe. -/
theorem cycle_in_unit_C8 (audit_prob fine_amount reputation_loss : ℚ)
    (liability_model : String) (rs : RandomStream)
    (hp0 : 0 ≤ audit_prob) (hp1 : audit_prob ≤ 1)
    (hf : 0 ≤ fine_amount) (hr : 0 ≤ reputation_loss)
    (hm : liability_model = "Individual" ∨ liability_model = "Partnership")
    (hi : ∀ l, List.Perm (rs.initShuffle l) l)
    (hs : ∀ t l, List.Perm (rs.shuffle t l) l) :
    0 ≤ run_evolutionary_cycle audit_prob fine_amount reputation_loss
      liability_model rs
    ∧ run_evolutionary_cycle audit_prob fine_amount reputation_loss
      liability_model rs ≤ 1
    ∧ run_evolutionary_cycle audit_prob fine_amount reputation_loss
      liability_model rs
      = ((cyclePopulation POPULATION_SIZE ROUNDS_PER_SIM audit_prob
          fine_amount reputation_loss liability_model rs).countP
          (fun a => a.strategy == 1) : ℚ) / (POPULATION_SIZE : ℚ) := by
  obtain ⟨h01, hlen⟩ := cyclePopulation_WF POPULATION_SIZE ROUNDS_PER_SIM
    audit_prob fine_amount reputation_loss liability_model rs hi hs
  obtain ⟨hsum, hle⟩ := sum_strategies_eq h01
  have hlenPop : (cyclePopulation POPULATION_SIZE ROUNDS_PER_SIM audit_prob
      fine_amount reputation_loss liability_model rs).length
      = POPULATION_SIZE := by
    rw [hlen]
    rfl
  have hcount : (cyclePopulation POPULATION_SIZE ROUNDS_PER_SIM audit_prob
      fine_amount reputation_loss liability_model rs).countP
      (fun a => a.strategy == 1) ≤ POPULATION_SIZE :=
    le_trans (List.countP_le_length _) (le_of_eq hlenPop)
  simp only [run_evolutionary_cycle, runCycle]
  rw [hsum]
  refine ⟨div_nonneg (Nat.cast_nonneg _) (Nat.cast_nonneg _), ?_, rfl⟩
  rw [div_le_one (by norm_num [POPULATION_SIZE])]
  exact_mod_cast hcount

/-- Witness for C8 at concrete valid inputs and the identity-shuffle
stream. -/
theorem cycle_in_unit_C8_witness :
    (0 : ℚ) ≤ 1 / 2 ∧ (1 / 2 : ℚ) ≤ 1 ∧ (0 : ℚ) ≤ 30 ∧ (0 : ℚ) ≤ 10
    ∧ (("Individual" : String) = "Individual"
      ∨ ("Individual" : String) = "Partnership")
    ∧ (∀ l, List.Perm (idStream.initShuffle l) l)
    ∧ (∀ t l, List.Perm (idStream.shuffle t l) l)
    ∧ (0 ≤ run_evolutionary_cycle (1 / 2) 30 10 "Individual" idStream
      ∧ run_evolutionary_cycle (1 / 2) 30 10 "Individual" idStream ≤ 1
      ∧ run_evolutionary_cycle (1 / 2) 30 10 "Individual" idStream
        = ((cyclePopulation POPULATION_SIZE ROUNDS_PER_SIM (1 / 2) 30 10
            "Individual" idStream).countP
            (fun a => a.strategy == 1) : ℚ) / (POPULATION_SIZE : ℚ)) :=
  ⟨by norm_num, by norm_num, by norm_num, by norm_num, Or.inl rfl,
    fun l => List.Perm.refl l, fun t l => List.Perm.refl l,
    cycle_in_unit_C8 (1 / 2) 30 10 "Individual" idStream (by norm_num)
      (by norm_num) (by norm_num) (by norm_num) (Or.inl rfl)
      (fun l => List.Perm.refl l) (fun t l => List.Perm.refl l)⟩

/-- Safe count plus Risky count is the population size when every
strategy is 0 or 1. -/
theorem countP_partition {l : List Agent} (h : strategies01 l) :
    l.countP (fun a => a.strategy == 1) + l.countP (fun a => a.strategy == 0)
      = l.length := by
  induction l with
  | nil => rfl
  | cons a rest ih =>
    have ha := h a (List.mem_cons_self a rest)
    have hrest := ih fun b hb => h b (List.mem_cons_of_mem a hb)
    simp only [List.countP_cons, List.length_cons]
    rcases ha with ha | ha <;> simp [ha] <;> omega

/-- The consecutive pairs of an even-length list cover it exactly:
flattening the pair list restores the list. -/
theorem pairsOf_cover : ∀ l : List Agent, l.length % 2 = 0 →
    ((pairsOf l).map fun q => [q.1, q.2]).flatten = l
  | [], _ => rfl
  | [a], h => by simp at h
  | a :: b :: rest, h => by
    have hrest : rest.length % 2 = 0 := by
      simp only [List.length_cons] at h
      omega
    have hcons : pairsOf (a :: b :: rest) = (a, b) :: pairsOf rest := rfl
    rw [hcons, List.map_cons, List.flatten_cons, pairsOf_cover rest hrest]
    rfl

/-- Claim C9: the partition invariant.  After any number of rounds the
Safe set and the Risky set partition the population (their counts sum to
`POPULATION_SIZE`), and the pairing of any even-length shuffled list
splits it into consecutive disjoint pairs covering every agent exactly
once. -/
theorem partition_invariant_C9 (audit_prob fine_amount reputation_loss : ℚ)
    (liability_model : String) (rs : RandomStream)
    (hi : ∀ l, List.Perm (rs.initShuffle l) l)
    (hs : ∀ t l, List.Perm (rs.shuffle t l) l) (t : Nat) :
    ((cyclePopulation POPULATION_SIZE t audit_prob fine_amount
        reputation_loss liability_model rs).countP (fun a => a.strategy == 1)
      + (cyclePopulation POPULATION_SIZE t audit_prob fine_amount
        reputation_loss liability_model rs).countP (fun a => a.strategy == 0)
      = POPULATION_SIZE)
    ∧ ∀ l : List Agent, l.length % 2 = 0 →
        ((pairsOf l).map fun q => [q.1, q.2]).flatten = l := by
  obtain ⟨h01, hlen⟩ := cyclePopulation_WF POPULATION_SIZE t audit_prob
    fine_amount reputation_loss liability_model rs hi hs
  refine ⟨?_, fun l hl => pairsOf_cover l hl⟩
  rw [countP_partition h01, hlen]
  rfl

/-- Witness for C9: the identity-shuffle stream after 7 rounds. -/
theorem partition_invariant_C9_witness :
    (∀ l, List.Perm (idStream.initShuffle l) l)
    ∧ (∀ t l, List.Perm (idStream.shuffle t l) l)
    ∧ (((cyclePopulation POPULATION_SIZE 7 (1 / 2) 30 10 "LLC"
          idStream).countP (fun a => a.strategy == 1)
        + (cyclePopulation POPULATION_SIZE 7 (1 / 2) 30 10 "LLC"
          idStream).countP (fun a => a.strategy == 0)
        = POPULATION_SIZE)
      ∧ ∀ l : List Agent, l.length % 2 = 0 →
          ((pairsOf l).map fun q => [q.1, q.2]).flatten = l) :=
  ⟨fun l => List.Perm.refl l, fun t l => List.Perm.refl l,
    partition_invariant_C9 (1 / 2) 30 10 "LLC" idStream
      (fun l => List.Perm.refl l) (fun t l => List.Perm.refl l) 7⟩

/-- `playPair` only inspects the liability model through equality with
"Partnership": any two non-"Partnership" models play identically. -/
theorem playPair_model_eq (fine_amount reputation_loss : ℚ) {m1 m2 : String}
    (h1 : m1 ≠ "Partnership") (h2 : m2 ≠ "Partnership") (aud : Bool)
    (a b : Agent) :
    playPair fine_amount reputation_loss m1 aud a b
      = playPair fine_amount reputation_loss m2 aud a b := by
  have e1 : (m1 == "Partnership") = false := beq_eq_false_iff_ne.mpr h1
  have e2 : (m2 == "Partnership") = false := beq_eq_false_iff_ne.mpr h2
  simp only [playPair, e1, e2]

/-- Pair-loop version of `playPair_model_eq`. -/
theorem playPairs_model_eq (fine_amount reputation_loss audit_prob : ℚ)
    {m1 m2 : String} (h1 : m1 ≠ "Partnership") (h2 : m2 ≠ "Partnership")
    (auditU : Nat → ℚ) :
    ∀ (k : Nat) (l : List Agent),
      playPairs fine_amount reputation_loss m1 audit_prob auditU k l
        = playPairs fine_amount reputation_loss m2 audit_prob auditU k l
  | _, [] => rfl
  | _, [_] => rfl
  | k, a :: b :: rest => by
    simp only [playPairs]
    rw [playPair_model_eq fine_amount reputation_loss h1 h2,
      playPairs_model_eq fine_amount reputation_loss audit_prob h1 h2 auditU
        (k + 1) rest]

/-- Folding with pointwise-equal step functions gives equal results. -/
theorem foldl_fun_congr {α β : Type} (f g : α → β → α) (l : List β)
    (h : ∀ a b, f a b = g a b) : ∀ a, l.foldl f a = l.foldl g a := by
  induction l with
  | nil => exact fun a => rfl
  | cons b rest ih =>
    intro a
    simp only [List.foldl_cons, h a b]
    exact ih (g a b)

/-- Claim C10: for any two liability-model strings different from
"Partnership" — e.g. "Individual" and the "LLC" string passed by the
sweep driver — the whole cycle computes exactly the same result on the
same random stream: the engine only ever tests equality with
"Partnership". -/
theorem model_agnostic_C10 (audit_prob fine_amount reputation_loss : ℚ)
    (m1 m2 : String) (rs : RandomStream)
    (h1 : m1 ≠ "Partnership") (h2 : m2 ≠ "Partnership") :
    run_evolutionary_cycle audit_prob fine_amount reputation_loss m1 rs
      = run_evolutionary_cycle audit_prob fine_amount reputation_loss m2 rs := by
  have hround : ∀ (acc : List Agent) (t : Nat),
      runRound fine_amount reputation_loss m1 audit_prob (rs.shuffle t)
        (rs.auditU t) (rs.learnU t) acc
      = runRound fine_amount reputation_loss m2 audit_prob (rs.shuffle t)
        (rs.auditU t) (rs.learnU t) acc := by
    intro acc t
    simp only [runRound]
    rw [playPairs_model_eq fine_amount reputation_loss audit_prob h1 h2
      (rs.auditU t) 0]
  have hpop : cyclePopulation POPULATION_SIZE ROUNDS_PER_SIM audit_prob
      fine_amount reputation_loss m1 rs
      = cyclePopulation POPULATION_SIZE ROUNDS_PER_SIM audit_prob
        fine_amount reputation_loss m2 rs := by
    simp only [cyclePopulation]
    exact foldl_fun_congr _ _ (List.range ROUNDS_PER_SIM) hround _
  simp only [run_evolutionary_cycle, runCycle, hpop]

/-- Witness for C10: "LLC" (what the sweep driver passes) and
"Individual" on the identity-shuffle stream. -/
theorem model_agnostic_C10_witness :
    ("LLC" : String) ≠ "Partnership"
    ∧ ("Individual" : String) ≠ "Partnership"
    ∧ run_evolutionary_cycle (1 / 2) 30 10 "LLC" idStream
      = run_evolutionary_cycle (1 / 2) 30 10 "Individual" idStream :=
  ⟨by decide, by decide,
    model_agnostic_C10 (1 / 2) 30 10 "LLC" "Individual" idStream
      (by decide) (by decide)⟩
